import Mathlib

/-!
Verification development for the StrictlyVC fundraising-scraper repository.

The Python core is shallowly embedded here:
* `parser.py` — the three `FUNDING_PATTERNS` regexes (compiled with
  `re.IGNORECASE`), `parse_funding_paragraph`, and `extract_funding_sections`
  (over a DOM tree model);
* `job_search.py` — `_matches_keywords`, `_matches_location`,
  `_generate_slugs`, `_filter_jobs`;
* `config.py` — the keyword and heading lists, verbatim;
* `app.py` — the lock-guarded `/api/run` and `/api/status` handlers as
  atomic transitions on the shared run state.

Python strings are embedded as Lean `String` / `List Char`; the embedding is
faithful on ASCII text (Python's `str.lower`, `str.strip`, `\s`, `\d` and
`re.IGNORECASE` additionally handle non-ASCII Unicode, which none of the
repository's keyword data uses).

All three source regexes are anchored with `^` and used via `.search` without
`re.MULTILINE`, so a search is exactly a prefix match at position 0; the
engine below implements that prefix match with Python's backtracking
priorities (ordered alternation, greedy/lazy quantifiers).  Every quantifier
body in the source patterns is a single character class, so the possible
repetition counts of a quantifier are the drop-counts 0..run-length, tried in
Python's preference order.
-/

/-! ## Python string helpers (ASCII-faithful) -/

/-- Python `\s` / `str.strip` whitespace (ASCII part). -/
def isSpaceB (c : Char) : Bool :=
  c == ' ' || c == '\t' || c == '\n' || c == '\r' || c == '\x0b' || c == '\x0c'

/-- Drop trailing whitespace, as the second half of Python `str.strip()`. -/
def dropTrailWs (l : List Char) : List Char :=
  (l.reverse.dropWhile isSpaceB).reverse

/-- Python `str.strip()` on a character list. -/
def pyStripL (l : List Char) : List Char :=
  dropTrailWs (l.dropWhile isSpaceB)

/-- Python `str.strip()`. -/
def pyStripS (s : String) : String :=
  String.mk (pyStripL s.toList)

/-- Python `str.lower()` (ASCII-faithful). -/
def pyLower (s : String) : String :=
  String.mk (s.toList.map Char.toLower)

/-- Does `hay` start with `needle`? -/
def startsWithL : List Char → List Char → Bool
  | _, [] => true
  | [], _ :: _ => false
  | h :: hs, n :: ns => h == n && startsWithL hs ns

/-- Python substring containment `needle in hay`. -/
def containsL (hay needle : List Char) : Bool :=
  if startsWithL hay needle then true
  else
    match hay with
    | [] => false
    | _ :: t => containsL t needle

/-- Python `needle in hay` on strings. -/
def strContains (hay needle : String) : Bool :=
  containsL hay.toList needle.toList

/-! ## Regex engine

A backtracking matcher in continuation-passing style.  `Option.orElse`-style
choice gives exactly Python's depth-first backtracking order: the first
success in preference order is the match Python reports. -/

/-- The named capture groups appearing in `FUNDING_PATTERNS`. -/
inductive GName where
  | company | location | description | amount | round | lead_investor
deriving DecidableEq, Repr

/-- Captured groups; `none` = the group did not participate in the match
(Python `groupdict()` value `None`, or the group absent from the pattern). -/
structure Caps where
  company : Option String := none
  location : Option String := none
  description : Option String := none
  amount : Option String := none
  round : Option String := none
  lead_investor : Option String := none
deriving DecidableEq, Repr

def setG : GName → String → Caps → Caps
  | .company, v, c => { c with company := some v }
  | .location, v, c => { c with location := some v }
  | .description, v, c => { c with description := some v }
  | .amount, v, c => { c with amount := some v }
  | .round, v, c => { c with round := some v }
  | .lead_investor, v, c => { c with lead_investor := some v }

def getG : GName → Caps → Option String
  | .company, c => c.company
  | .location, c => c.location
  | .description, c => c.description
  | .amount, c => c.amount
  | .round, c => c.round
  | .lead_investor, c => c.lead_investor

/-- Regular expressions as used by `FUNDING_PATTERNS`: every quantifier body
is a single character class (`Char → Bool`), matching the source patterns. -/
inductive RE where
  | eps
  | cls (p : Char → Bool)
  | seq (a b : RE)
  | alt (a b : RE)
  | opt (a : RE)
  | starG (p : Char → Bool)
  | starL (p : Char → Bool)
  | plusG (p : Char → Bool)
  | plusL (p : Char → Bool)
  | group (g : GName) (a : RE)

/-- Length of the longest prefix of `s` whose characters all satisfy `p`. -/
def runLen (p : Char → Bool) : List Char → Nat
  | [] => 0
  | c :: cs => if p c then runLen p cs + 1 else 0

/-- Try the continuation after dropping each count in `ns`, in order;
first success wins (Python backtracking order on repetition counts). -/
def tryDrops (k : List Char → Caps → Option Caps) (s : List Char) (caps : Caps) :
    List Nat → Option Caps
  | [] => none
  | n :: ns =>
    match k (s.drop n) caps with
    | some r => some r
    | none => tryDrops k s caps ns

/-- Greedy `*`: repetition counts run, run-1, ..., 0. -/
def countsG (r : Nat) : List Nat := (List.range (r + 1)).reverse

/-- Lazy `*?`: repetition counts 0, 1, ..., run. -/
def countsL (r : Nat) : List Nat := List.range (r + 1)

/-- Greedy `+`: repetition counts run, ..., 1. -/
def countsPG (r : Nat) : List Nat := ((List.range r).map (· + 1)).reverse

/-- Lazy `+?`: repetition counts 1, ..., run. -/
def countsPL (r : Nat) : List Nat := (List.range r).map (· + 1)

/-- The backtracking matcher.  `mat r s caps k` matches `r` against a prefix
of `s`, updating captures, and calls `k` on the remainder; alternatives are
tried in Python's preference order and the first overall success is
returned. -/
def mat : RE → List Char → Caps → (List Char → Caps → Option Caps) → Option Caps
  | .eps, s, caps, k => k s caps
  | .cls p, s, caps, k =>
    match s with
    | [] => none
    | c :: cs => if p c then k cs caps else none
  | .seq a b, s, caps, k => mat a s caps (fun s2 c2 => mat b s2 c2 k)
  | .alt a b, s, caps, k =>
    match mat a s caps k with
    | some r => some r
    | none => mat b s caps k
  | .opt a, s, caps, k =>
    match mat a s caps k with
    | some r => some r
    | none => k s caps
  | .starG p, s, caps, k => tryDrops k s caps (countsG (runLen p s))
  | .starL p, s, caps, k => tryDrops k s caps (countsL (runLen p s))
  | .plusG p, s, caps, k => tryDrops k s caps (countsPG (runLen p s))
  | .plusL p, s, caps, k => tryDrops k s caps (countsPL (runLen p s))
  | .group g a, s, caps, k =>
    mat a s caps (fun rest c2 =>
      k rest (setG g (String.mk (s.take (s.length - rest.length))) c2))

/-- Run an (anchored) pattern against a string: `re.search` on the
`^`-anchored source patterns is exactly a prefix match at position 0. -/
def runPattern (r : RE) (s : List Char) : Option Caps :=
  mat r s {} (fun _ c => some c)

/-! ## The three `FUNDING_PATTERNS` (parser.py lines 15-46)

All compiled with `re.IGNORECASE`: literals match case-insensitively and the
`[A-Z]` class also matches lowercase ASCII letters. -/

/-- `[A-Z]` under `re.IGNORECASE`: any ASCII letter. -/
def azAZciB (c : Char) : Bool := c.isAlpha

/-- `[^,]`. -/
def neCommaB (c : Char) : Bool := c != ','

/-- `[^.]`. -/
def neDotB (c : Char) : Bool := c != '.'

/-- `[^,.]`. -/
def neCommaDotB (c : Char) : Bool := c != ',' && c != '.'

/-- `.` without `re.DOTALL`: any character but newline. -/
def dotAnyB (c : Char) : Bool := c != '\n'

/-- `[A-Za-z\s.]`. -/
def locClassB (c : Char) : Bool := c.isAlpha || isSpaceB c || c == '.'

/-- `[\d.,]`. -/
def amtClassB (c : Char) : Bool := c.isDigit || c == '.' || c == ','

/-- `[,-]`. -/
def commaDashB (c : Char) : Bool := c == ',' || c == '-'

/-- `[.,]`. -/
def dotCommaB (c : Char) : Bool := c == '.' || c == ','

/-- Case-insensitive literal (the patterns carry `re.IGNORECASE`). -/
def litCI (s : String) : RE :=
  (s.toList.map Char.toLower).foldr (fun c r => RE.seq (RE.cls (fun d => d.toLower == c)) r) RE.eps

/-- Sequence of a list of regexes. -/
def seqAll (l : List RE) : RE := l.foldr RE.seq RE.eps

/-- `(?P<company>[A-Z][^,]+)` — shared head of all three patterns. -/
def companyG : RE := RE.group .company (RE.seq (RE.cls azAZciB) (RE.plusG neCommaB))

/-- The shared tail of all three patterns:
`(?:has\s+)?raised\s+(?:a\s+)?\$(?P<amount>[\d.,]+\s*(?:billion|million)?)\s+`
`(?:in\s+)?(?P<round>[^.]*?(?:round|funding|seed)[^.]*?)`
`(?:\s*led\s*by\s*(?P<lead_investor>[^,.]+?))?[.,]` -/
def tailRE : RE := seqAll [
  RE.opt (seqAll [litCI "has", RE.plusG isSpaceB]),
  litCI "raised", RE.plusG isSpaceB,
  RE.opt (seqAll [litCI "a", RE.plusG isSpaceB]),
  litCI "$",
  RE.group .amount (seqAll [RE.plusG amtClassB, RE.starG isSpaceB,
    RE.opt (RE.alt (litCI "billion") (litCI "million"))]),
  RE.plusG isSpaceB,
  RE.opt (seqAll [litCI "in", RE.plusG isSpaceB]),
  RE.group .round (seqAll [RE.starL neDotB,
    RE.alt (litCI "round") (RE.alt (litCI "funding") (litCI "seed")),
    RE.starL neDotB]),
  RE.opt (seqAll [RE.starG isSpaceB, litCI "led", RE.starG isSpaceB, litCI "by",
    RE.starG isSpaceB, RE.group .lead_investor (RE.plusL neCommaDotB)]),
  RE.cls dotCommaB ]

/-- Pattern 1 after the company group:
`,\s+a\s+.+?[,-]\s*(?P<location>[A-Za-z\s.]+?)-based\s+(?P<description>[^,]+?),\s+` + tail. -/
def rest1 : RE := seqAll [
  litCI ",", RE.plusG isSpaceB,
  litCI "a", RE.plusG isSpaceB,
  RE.plusL dotAnyB, RE.cls commaDashB, RE.starG isSpaceB,
  RE.group .location (RE.plusL locClassB),
  litCI "-based", RE.plusG isSpaceB,
  RE.group .description (RE.plusL neCommaB),
  litCI ",", RE.plusG isSpaceB,
  tailRE ]

/-- Pattern 2 after the company group:
`,\s+a\s+(?P<location>[A-Za-z\s.]+?)-based\s+(?P<description>[^,]+?),\s+` + tail. -/
def rest2 : RE := seqAll [
  litCI ",", RE.plusG isSpaceB,
  litCI "a", RE.plusG isSpaceB,
  RE.group .location (RE.plusL locClassB),
  litCI "-based", RE.plusG isSpaceB,
  RE.group .description (RE.plusL neCommaB),
  litCI ",", RE.plusG isSpaceB,
  tailRE ]

/-- Pattern 3 after the company group: `,\s+.*?` + tail. -/
def rest3 : RE := seqAll [
  litCI ",", RE.plusG isSpaceB,
  RE.starL dotAnyB,
  tailRE ]

def pattern1 : RE := RE.seq companyG rest1
def pattern2 : RE := RE.seq companyG rest2
def pattern3 : RE := RE.seq companyG rest3

/-- The ordered cascade `FUNDING_PATTERNS` (most specific first). -/
def FUNDING_PATTERNS : List RE := [pattern1, pattern2, pattern3]

/-! ## `parse_funding_paragraph` (parser.py lines 101-132) -/

/-- The record returned by `parse_funding_paragraph`. -/
structure FundingEntry where
  company : String
  amount : String
  round : String
  location : String
  description : String
  lead_investor : String
  raw_text : String
  parsed : Bool
deriving DecidableEq, Repr

/-- `groups.get(name, "").strip()`, with the source's
`... if groups.get(name) else ""` guard on the optional groups collapsed:
both forms send `None` (here `none`) and whitespace-only captures to `""`. -/
def optStrip (o : Option String) : String := pyStripS (o.getD "")

/-- The matched-branch record of `parse_funding_paragraph` (lines 111-120). -/
def entryOfCaps (text : String) (caps : Caps) : FundingEntry :=
  { company := optStrip caps.company
    amount := optStrip caps.amount
    round := optStrip caps.round
    location := optStrip caps.location
    description := optStrip caps.description
    lead_investor := optStrip caps.lead_investor
    raw_text := text
    parsed := true }

/-- The no-match record of `parse_funding_paragraph` (lines 123-132). -/
def noMatchEntry (text : String) : FundingEntry :=
  { company := "", amount := "", round := "", location := "", description := ""
    lead_investor := "", raw_text := text, parsed := false }

/-- `parse_funding_paragraph`: first pattern of the ordered cascade that
matches wins; otherwise the explicit failure record. -/
def parse_funding_paragraph (text : String) : FundingEntry :=
  match FUNDING_PATTERNS.findSome? (fun p => runPattern p text.toList) with
  | some caps => entryOfCaps text caps
  | none => noMatchEntry text

/-- Does any pattern of the cascade match the paragraph? -/
def anyPatternMatches (text : String) : Bool :=
  FUNDING_PATTERNS.any (fun p => (runPattern p text.toList).isSome)

/-! ## config.py keyword data (verbatim) -/

def FUNDING_HEADINGS : List String :=
  ["massive fundings", "big-but-not-crazy-big fundings", "smaller fundings"]

def LOCATION_KEYWORDS : List String := ["new york", "nyc", "ny", "remote"]

def SLUG_STRIP_SUFFIXES : List String := [
  "inc", "llc", "co", "corp", "corporation", "company",
  "ai", "labs", "lab", "technologies", "technology", "tech",
  "health", "medical", "therapeutics", "bio", "biotechnologies",
  "systems", "security", "robotics", "holdings", "enterprises",
  "services", "solutions", "markets", "computing"]

def ENTRY_LEVEL_KEYWORDS : List String := [
  "entry level", "entry-level", "junior", "associate", "analyst",
  "new grad", "new graduate", "jr.", "jr ", " i ", " 1 "]

def ROLE_KEYWORDS : List String := [
  "software", "engineer", "developer", "programming", "data",
  "machine learning", "ml ", " ai ", "devops", "cloud",
  "frontend", "front-end", "backend", "back-end", "fullstack", "full-stack",
  "sdr", "bdr", "account executive", "business development",
  "sales development", "sales engineer", "solutions", "product",
  "technical", " it ", "security", "qa", "quality assurance",
  "support engineer"]

def SENIOR_KEYWORDS : List String := [
  "senior", "sr.", "sr ", "staff", "principal", "lead", "manager",
  "director", "vp ", "vice president", "head of", "chief", "architect",
  "distinguished", " ii", " iii", " iv", " v ", "strategist"]

/-! ## job_search.py: keyword filters -/

/-- `_matches_keywords` (job_search.py lines 15-18): the lowercased title is
padded with one space on each side, and any keyword (lowercased) is tested
for substring containment. -/
def matches_keywords (title : String) (keywords : List String) : Bool :=
  keywords.any (fun kw => strContains (" " ++ pyLower title ++ " ") (pyLower kw))

/-- `_matches_location` (job_search.py lines 21-24): raw substring containment
of each location keyword in the lowercased location, with no padding. -/
def matches_location (location : String) : Bool :=
  LOCATION_KEYWORDS.any (fun kw => strContains (pyLower location) kw)

/-- A job listing as produced by the ATS fetchers (title/company/location/
job_url/ats_platform string fields). -/
structure Job where
  title : String
  company : String
  location : String
  job_url : String
  ats_platform : String
deriving DecidableEq, Repr

/-- `_filter_jobs` (job_search.py lines 167-189): the four `continue`-guarded
checks, in source order. -/
def filter_jobs : List Job → List Job
  | [] => []
  | j :: rest =>
    if ¬ matches_keywords j.title ROLE_KEYWORDS then filter_jobs rest
    else if ¬ matches_keywords j.title ENTRY_LEVEL_KEYWORDS then filter_jobs rest
    else if matches_keywords j.title SENIOR_KEYWORDS then filter_jobs rest
    else if ¬ matches_location j.location then filter_jobs rest
    else j :: filter_jobs rest

/-- The claim's four-predicate inclusion decision: role keyword present,
entry-level keyword present, no senior keyword, location keyword present. -/
def includeJob (j : Job) : Bool :=
  matches_keywords j.title ROLE_KEYWORDS
    && matches_keywords j.title ENTRY_LEVEL_KEYWORDS
    && !matches_keywords j.title SENIOR_KEYWORDS
    && matches_location j.location

/-! ## job_search.py: `_generate_slugs` (lines 27-64) -/

/-- Python `str.split()` with no separator: split on whitespace runs,
dropping empty pieces.  `acc` holds the current word reversed. -/
def splitWsAux (acc : List Char) : List Char → List (List Char)
  | [] => if acc.isEmpty then [] else [acc.reverse]
  | c :: cs =>
    if isSpaceB c then
      if acc.isEmpty then splitWsAux [] cs
      else acc.reverse :: splitWsAux [] cs
    else splitWsAux (c :: acc) cs

def splitWs (l : List Char) : List (List Char) := splitWsAux [] l

/-- `re.sub(r"[^a-z0-9\s]", "", company_name.lower()).strip()`. -/
def cleanName (s : String) : List Char :=
  pyStripL ((s.toList.map Char.toLower).filter
    (fun c => c.isLower || c.isDigit || isSpaceB c))

/-- `"".join(words)`. -/
def joinWords (ws : List (List Char)) : List Char := ws.flatten

/-- `"-".join(words)`. -/
def hyphenJoin : List (List Char) → List Char
  | [] => []
  | [w] => w
  | w :: ws => w ++ '-' :: hyphenJoin ws

/-- First-seen-order de-duplication (job_search.py lines 57-62). -/
def dedupSeen (seen : List (List Char)) : List (List Char) → List (List Char)
  | [] => []
  | s :: rest =>
    if s ∈ seen then dedupSeen seen rest
    else s :: dedupSeen (s :: seen) rest

/-- `_generate_slugs` (job_search.py lines 27-64). -/
def generate_slugs (company_name : String) : List String :=
  let words := splitWs (cleanName company_name)
  let slugs1 : List (List Char) :=
    if words.length > 1 then [joinWords words, hyphenJoin words] else []
  let slugs2 : List (List Char) :=
    slugs1 ++ (if words.length == 1 then [words.headD []] else [])
  let stripped := words.filter (fun w => ¬ SLUG_STRIP_SUFFIXES.any (fun suf => suf.toList == w))
  let slugs3 : List (List Char) :=
    slugs2 ++
      (if ¬ stripped.isEmpty ∧ stripped ≠ words then
        (if stripped.length > 1 then [joinWords stripped, hyphenJoin stripped]
         else if stripped.length == 1 then [stripped.headD []] else [])
       else [])
  (dedupSeen [] slugs3).map String.mk

/-! ## app.py: shared run state and the `/api/run`, `/api/status` handlers

Both handlers operate entirely inside `with run_lock:` critical sections, so
they are embedded as atomic transitions on the shared `run_state`.  The
result payloads (`fundings`, `jobs`, `combined`, `summary`) are modelled as
lists of rendered records; their element type is irrelevant to the handlers,
which only reset them to empty. -/

structure RunState where
  running : Bool
  status : String
  progress : String
  fundings : List FundingEntry
  jobs : List Job
  combined : List Job
  summary : List (String × Nat)
deriving DecidableEq, Repr

/-- The state installed by a successful `/api/run` (app.py lines 162-170). -/
def freshRunState : RunState :=
  { running := true, status := "running", progress := "Starting pipeline..."
    fundings := [], jobs := [], combined := [], summary := [] }

/-- `/api/run` (app.py lines 157-174) as an atomic transition: returns the
new shared state, the HTTP status code, and whether a pipeline thread was
started. -/
def api_run (s : RunState) : RunState × Nat × Bool :=
  if s.running then (s, 409, false)
  else (freshRunState, 200, true)

/-- `/api/status` (app.py lines 177-180): a snapshot of the shared state. -/
def api_status (s : RunState) : RunState := s

/-! ## parser.py: `extract_funding_sections` (lines 49-98) over a DOM model

The rendered article markup is modelled as a tree of element and text nodes.
BeautifulSoup specifics embedded here:
* `get_text(strip=True)` concatenates the stripped text leaves in order;
* `find_all(names)` yields matching elements in document (pre-order) order;
* `tag.find(names)` searches the tag's descendants (not the tag itself);
* `find_next_siblings()` yields the following element (not text) siblings;
* the soup root has name `"[document]"`. -/

structure NAttrs where
  idAttr : Option String := none
  classes : List String := []
deriving DecidableEq, Repr

inductive Node where
  | elem (tag : String) (attrs : NAttrs) (children : List Node)
  | text (s : String)
deriving Repr

mutual
/-- Stripped text pieces of a node, in document order (`get_text(strip=True)`
strips each text leaf and joins them with the empty separator). -/
def nodeTexts : Node → List String
  | .text s => [String.mk (pyStripL s.toList)]
  | .elem _ _ cs => nodesTexts cs
def nodesTexts : List Node → List String
  | [] => []
  | n :: ns => nodeTexts n ++ nodesTexts ns
end

/-- `get_text(strip=True)`. -/
def getText (n : Node) : String := String.join (nodeTexts n)

/-- The heading tags searched for inside siblings (`["h1","h2","h3","h4"]`). -/
def H_TAGS : List String := ["h1", "h2", "h3", "h4"]

mutual
/-- Is this node, or any of its descendants, an h1-h4 element? -/
def selfOrDescHeading : Node → Bool
  | .text _ => false
  | .elem t _ cs => t ∈ H_TAGS || anyHeadingL cs
def anyHeadingL : List Node → Bool
  | [] => false
  | n :: ns => selfOrDescHeading n || anyHeadingL ns
end

/-- `sibling.find(["h1","h2","h3","h4"]) is not None`: a descendant search,
excluding the sibling itself. -/
def descHasHeading : Node → Bool
  | .text _ => false
  | .elem _ _ cs => anyHeadingL cs

/-- An ancestor frame: the ancestor element's tag and attributes, plus the
following siblings of the path child inside that ancestor. -/
structure Frame where
  tag : String
  attrs : NAttrs
  after : List Node
deriving Repr

mutual
/-- All element descendants in pre-order, each paired with its ancestor
frames (innermost first). -/
def elemsWF (frames : List Frame) : Node → List (Node × List Frame)
  | .text _ => []
  | .elem t a cs => (Node.elem t a cs, frames) :: childrenWF t a frames cs
def childrenWF (t : String) (a : NAttrs) (frames : List Frame) :
    List Node → List (Node × List Frame)
  | [] => []
  | c :: rest => elemsWF (⟨t, a, rest⟩ :: frames) c ++ childrenWF t a frames rest
end

/-- All elements of the document with their frames; the root is the soup
object itself (name `"[document]"`), which `find_all` does not yield. -/
def allElems : Node → List (Node × List Frame)
  | .elem t a cs => childrenWF t a [] cs
  | .text _ => []

/-- The tags scanned for funding headings (parser.py line 62). -/
def HEADING_SCAN_TAGS : List String := ["h1", "h2", "h3", "h4", "strong", "b", "p"]

def tagOf : Node → String
  | .elem t _ _ => t
  | .text _ => ""

/-- First funding heading label contained in the element's lowercased text
(parser.py lines 63-67: the inner loop breaks at the first label). -/
def findLabel (lowText : String) : Option String :=
  FUNDING_HEADINGS.find? (fun h => strContains lowText h)

/-- Is this ancestor the content container (parser.py lines 76-78):
`id == "content-blocks"` or `"post-content" in " ".join(classes)`? -/
def isContentFrame (f : Frame) : Bool :=
  f.attrs.idAttr == some "content-blocks"
    || strContains (String.intercalate " " f.attrs.classes) "post-content"

/-- The upward walk of parser.py lines 74-80 followed by
`start.find_next_siblings()`: climb until the parent is the content
container or has name `body`/`[document]`; the result is the following
siblings of the node reached.  With no parent left, there are no siblings. -/
def climb : List Frame → List Node
  | [] => []
  | f :: rest =>
    if f.tag == "body" || f.tag == "[document]" then f.after
    else if isContentFrame f then f.after
    else climb rest

def isElemN : Node → Bool
  | .elem _ _ _ => true
  | .text _ => false

/-- Does the sibling signal the start of the next section (parser.py lines
87-89)?  Either it contains a nested h1-h4, or its own lowercased text
contains a funding heading label. -/
def stopSib (n : Node) : Bool :=
  descHasHeading n || FUNDING_HEADINGS.any (fun h => strContains (pyLower (getText n)) h)

/-- The sibling loop of parser.py lines 82-92: walk the following siblings in
order, break at the first stop sibling, and keep each visible text that is
non-empty and longer than 20 characters. -/
def collectParas : List Node → List String
  | [] => []
  | sib :: rest =>
    if stopSib sib then []
    else
      let t := getText sib
      if t ≠ "" ∧ t.length > 20 then t :: collectParas rest
      else collectParas rest

/-- One emitted section (`{"section": ..., "paragraphs": ...}`). -/
structure ArticleSection where
  sectionName : String
  paragraphs : List String
deriving DecidableEq, Repr

/-- `extract_funding_sections` (parser.py lines 49-98): find the heading
elements in document order, walk each one's ancestor chain to its section
wrapper, collect the qualifying sibling paragraphs, and emit a section only
when at least one paragraph qualified. -/
def extract_funding_sections (root : Node) : List ArticleSection :=
  (allElems root).filterMap (fun p =>
    if tagOf p.1 ∈ HEADING_SCAN_TAGS then
      match findLabel (pyLower (getText p.1)) with
      | some lab =>
        let paras := collectParas ((climb p.2).filter isElemN)
        if paras = [] then none else some ⟨lab, paras⟩
      | none => none
    else none)

/-- The claim's description of the sibling walk: the visible texts of the
siblings up to (exclusively) the first stop sibling, in document order,
keeping only the non-empty ones strictly longer than 20 characters. -/
def specParas (sibs : List Node) : List String :=
  ((sibs.takeWhile (fun s => ¬ stopSib s)).map getText).filter
    (fun t => t ≠ "" ∧ t.length > 20)

/-- `extract_funding_sections` re-stated with the claim's sibling-walk
description in place of the source's loop. -/
def specExtract (root : Node) : List ArticleSection :=
  (allElems root).filterMap (fun p =>
    if tagOf p.1 ∈ HEADING_SCAN_TAGS then
      match findLabel (pyLower (getText p.1)) with
      | some lab =>
        let paras := specParas ((climb p.2).filter isElemN)
        if paras = [] then none else some ⟨lab, paras⟩
      | none => none
    else none)

/-- Does the regex mention the named group anywhere? -/
def usesG (g : GName) : RE → Bool
  | .eps => false
  | .cls _ => false
  | .seq a b => usesG g a || usesG g b
  | .alt a b => usesG g a || usesG g b
  | .opt a => usesG g a
  | .starG _ => false
  | .starL _ => false
  | .plusG _ => false
  | .plusL _ => false
  | .group g2 a => g2 == g || usesG g a

/-! ## Concrete inputs used by the claim theorems -/

/-- The end-to-end example sentence of the spec (a Rule-B-shaped sentence). -/
def acmeParagraph : String :=
  "Acme Robotics, a New York-based delivery startup, has raised $12 million in seed funding led by Foo Ventures."

/-- A sentence matched by both pattern 1 (full template) and pattern 3
(minimal fallback). -/
def zetaParagraph : String :=
  "Zeta, a 3-year-old, Boston-based fintech, has raised $5 million in seed funding led by Nile."

/-- The captures pattern 1 produces on `zetaParagraph`. -/
def zetaCaps : Caps :=
  { company := some "Zeta", location := some "Boston", description := some "fintech"
    amount := some "5 million", round := some "seed funding", lead_investor := some "Nile" }

/-- A paragraph whose company name starts with a lowercase letter; the
`re.IGNORECASE` flag lets the `[A-Z]` class match it. -/
def lowerAcmeParagraph : String :=
  "acme, a Boston-based fintech, has raised $5 million in seed funding."

/-- A parseable paragraph used to witness the company-field shape theorem. -/
def miraParagraph : String :=
  "Mira, a Boston-based fintech, has raised $3 million in seed funding."

/-- A 15-character text: at or below the 20-character noise threshold. -/
def demoPara15 : String := "short, 15 chars"

/-- A 25-character text: strictly above the 20-character noise threshold. -/
def demoPara25 : String := "Acme raised funds, yes ok"

/-- A small Beehiiv-shaped document: a content container holding a wrapped
"Massive Fundings" heading, a 15-character paragraph, a 25-character
paragraph, and a wrapped "Smaller Fundings" heading with nothing after it. -/
def demoRoot : Node :=
  .elem "[document]" {} [
    .elem "html" {} [
      .elem "body" {} [
        .elem "div" { idAttr := some "content-blocks" } [
          .elem "div" {} [.elem "h2" {} [.text "Massive Fundings"]],
          .elem "p" {} [.text demoPara15],
          .elem "p" {} [.text demoPara25],
          .elem "div" {} [.elem "h2" {} [.text "Smaller Fundings"]]]]]]

/-- The spec's excluded job example: senior title in the target location. -/
def seniorNYJob : Job :=
  { title := "Senior Software Engineer", company := "acme", location := "New York, NY"
    job_url := "", ats_platform := "greenhouse" }

/-- The spec's included job example: level-1 title in a remote location. -/
def swe1RemoteJob : Job :=
  { title := "Software Engineer I", company := "acme", location := "Remote"
    job_url := "", ats_platform := "greenhouse" }

/-- A run state with a pipeline currently in progress. -/
def busyRunState : RunState :=
  { running := true, status := "running", progress := "Parsing funding entries..."
    fundings := [], jobs := [], combined := [], summary := [] }

/-! ## Declarative match semantics and soundness of the matcher

`Matches r t c0 c1` says: regex `r` can consume exactly the characters `t`,
transforming the captures from `c0` to `c1`.  `mat_sound` extracts such a
derivation from any successful run of the executable matcher; it is the
bridge from computed matches to structural facts about captured groups. -/

inductive Matches : RE → List Char → Caps → Caps → Prop where
  | eps {c : Caps} : Matches .eps [] c c
  | cls {p : Char → Bool} {ch : Char} {c : Caps} (h : p ch = true) : Matches (.cls p) [ch] c c
  | seq {a b : RE} {t1 t2 : List Char} {c0 c1 c2 : Caps}
      (h1 : Matches a t1 c0 c1) (h2 : Matches b t2 c1 c2) : Matches (.seq a b) (t1 ++ t2) c0 c2
  | altL {a b : RE} {t : List Char} {c0 c1 : Caps} (h : Matches a t c0 c1) :
      Matches (.alt a b) t c0 c1
  | altR {a b : RE} {t : List Char} {c0 c1 : Caps} (h : Matches b t c0 c1) :
      Matches (.alt a b) t c0 c1
  | optS {a : RE} {t : List Char} {c0 c1 : Caps} (h : Matches a t c0 c1) :
      Matches (.opt a) t c0 c1
  | optN {a : RE} {c : Caps} : Matches (.opt a) [] c c
  | starGm {p : Char → Bool} {t : List Char} {c : Caps} (h : ∀ x ∈ t, p x = true) :
      Matches (.starG p) t c c
  | starLm {p : Char → Bool} {t : List Char} {c : Caps} (h : ∀ x ∈ t, p x = true) :
      Matches (.starL p) t c c
  | plusGm {p : Char → Bool} {t : List Char} {c : Caps} (hne : t ≠ [])
      (h : ∀ x ∈ t, p x = true) : Matches (.plusG p) t c c
  | plusLm {p : Char → Bool} {t : List Char} {c : Caps} (hne : t ≠ [])
      (h : ∀ x ∈ t, p x = true) : Matches (.plusL p) t c c
  | grp {g : GName} {a : RE} {t : List Char} {c0 c1 : Caps} (h : Matches a t c0 c1) :
      Matches (.group g a) t c0 (setG g (String.mk t) c1)

theorem tryDrops_sound {k : List Char → Caps → Option Caps} {s : List Char} {caps res : Caps} :
    ∀ {ns : List Nat}, tryDrops k s caps ns = some res →
      ∃ n ∈ ns, k (s.drop n) caps = some res := by
  intro ns
  induction ns with
  | nil => intro h; simp [tryDrops] at h
  | cons n ns ih =>
    intro h
    unfold tryDrops at h
    rcases hk : k (s.drop n) caps with _ | r
    · rw [hk] at h
      obtain ⟨m, hm, hkm⟩ := ih h
      exact ⟨m, List.mem_cons_of_mem _ hm, hkm⟩
    · rw [hk] at h
      cases h
      exact ⟨n, List.mem_cons_self _ _, hk⟩

theorem runLen_le_length (p : Char → Bool) : ∀ s : List Char, runLen p s ≤ s.length := by
  intro s
  induction s with
  | nil => simp [runLen]
  | cons c cs ih =>
    unfold runLen
    by_cases hp : p c = true
    · rw [if_pos hp]; simpa using ih
    · rw [if_neg hp]; simp

theorem take_all_of_le_runLen {p : Char → Bool} :
    ∀ {s : List Char} {n : Nat}, n ≤ runLen p s → ∀ x ∈ s.take n, p x = true := by
  intro s
  induction s with
  | nil => intro n h x hx; simp at hx
  | cons c cs ih =>
    intro n h x hx
    rcases n with _ | m
    · simp at hx
    · unfold runLen at h
      by_cases hp : p c = true
      · rw [if_pos hp] at h
        rw [List.take_succ_cons] at hx
        rcases List.mem_cons.mp hx with rfl | hx2
        · exact hp
        · exact ih (by omega) x hx2
      · rw [if_neg hp] at h; omega

theorem mat_sound (r : RE) :
    ∀ (s : List Char) (caps : Caps) (k : List Char → Caps → Option Caps) (res : Caps),
      mat r s caps k = some res →
      ∃ t rest caps2, s = t ++ rest ∧ Matches r t caps caps2 ∧ k rest caps2 = some res := by
  induction r with
  | eps =>
    intro s caps k res h
    exact ⟨[], s, caps, rfl, Matches.eps, h⟩
  | cls p =>
    intro s caps k res h
    unfold mat at h
    rcases s with _ | ⟨c, cs⟩
    · simp at h
    · dsimp only at h
      by_cases hp : p c = true
      · rw [if_pos hp] at h
        exact ⟨[c], cs, caps, rfl, Matches.cls hp, h⟩
      · rw [if_neg hp] at h; simp at h
  | seq a b iha ihb =>
    intro s caps k res h
    unfold mat at h
    obtain ⟨t1, rest1, c1, hs1, m1, hk1⟩ := iha _ _ _ _ h
    obtain ⟨t2, rest2, c2, hs2, m2, hk2⟩ := ihb _ _ _ _ hk1
    exact ⟨t1 ++ t2, rest2, c2, by rw [hs1, hs2, List.append_assoc], Matches.seq m1 m2, hk2⟩
  | alt a b iha ihb =>
    intro s caps k res h
    unfold mat at h
    rcases hma : mat a s caps k with _ | r
    · rw [hma] at h
      obtain ⟨t, rest, c2, hs, m, hk⟩ := ihb _ _ _ _ h
      exact ⟨t, rest, c2, hs, Matches.altR m, hk⟩
    · rw [hma] at h
      cases h
      obtain ⟨t, rest, c2, hs, m, hk⟩ := iha _ _ _ _ hma
      exact ⟨t, rest, c2, hs, Matches.altL m, hk⟩
  | opt a iha =>
    intro s caps k res h
    unfold mat at h
    rcases hma : mat a s caps k with _ | r
    · rw [hma] at h
      exact ⟨[], s, caps, rfl, Matches.optN, h⟩
    · rw [hma] at h
      cases h
      obtain ⟨t, rest, c2, hs, m, hk⟩ := iha _ _ _ _ hma
      exact ⟨t, rest, c2, hs, Matches.optS m, hk⟩
  | starG p =>
    intro s caps k res h
    unfold mat at h
    obtain ⟨n, hn, hk⟩ := tryDrops_sound h
    unfold countsG at hn
    rw [List.mem_reverse, List.mem_range] at hn
    exact ⟨s.take n, s.drop n, caps, (List.take_append_drop n s).symm,
      Matches.starGm (take_all_of_le_runLen (by omega)), hk⟩
  | starL p =>
    intro s caps k res h
    unfold mat at h
    obtain ⟨n, hn, hk⟩ := tryDrops_sound h
    unfold countsL at hn
    rw [List.mem_range] at hn
    exact ⟨s.take n, s.drop n, caps, (List.take_append_drop n s).symm,
      Matches.starLm (take_all_of_le_runLen (by omega)), hk⟩
  | plusG p =>
    intro s caps k res h
    unfold mat at h
    obtain ⟨n, hn, hk⟩ := tryDrops_sound h
    unfold countsPG at hn
    rw [List.mem_reverse, List.mem_map] at hn
    obtain ⟨m, hm, rfl⟩ := hn
    rw [List.mem_range] at hm
    have hrl := runLen_le_length p s
    refine ⟨s.take (m + 1), s.drop (m + 1), caps, (List.take_append_drop _ s).symm,
      Matches.plusGm ?_ (take_all_of_le_runLen (by omega)), hk⟩
    intro hemp
    have := congrArg List.length hemp
    rw [List.length_take] at this
    simp only [List.length_nil] at this
    omega
  | plusL p =>
    intro s caps k res h
    unfold mat at h
    obtain ⟨n, hn, hk⟩ := tryDrops_sound h
    unfold countsPL at hn
    rw [List.mem_map] at hn
    obtain ⟨m, hm, rfl⟩ := hn
    rw [List.mem_range] at hm
    have hrl := runLen_le_length p s
    refine ⟨s.take (m + 1), s.drop (m + 1), caps, (List.take_append_drop _ s).symm,
      Matches.plusLm ?_ (take_all_of_le_runLen (by omega)), hk⟩
    intro hemp
    have := congrArg List.length hemp
    rw [List.length_take] at this
    simp only [List.length_nil] at this
    omega
  | group g a iha =>
    intro s caps k res h
    unfold mat at h
    obtain ⟨t, rest, c2, hs, m, hk⟩ := iha _ _ _ _ h
    refine ⟨t, rest, setG g (String.mk t) c2, hs, Matches.grp m, ?_⟩
    have ht : s.take (s.length - rest.length) = t := by
      subst hs
      rw [List.length_append, Nat.add_sub_cancel]
      exact List.take_left t rest
    rwa [ht] at hk


theorem getG_setG_ne {g g2 : GName} (v : String) (c : Caps) (h : g2 ≠ g) :
    getG g (setG g2 v c) = getG g c := by
  cases g <;> cases g2 <;> first | (exact absurd rfl h) | rfl

theorem getG_of_not_usesG {g : GName} {r : RE} {t : List Char} {c0 c1 : Caps}
    (m : Matches r t c0 c1) : usesG g r = false → getG g c1 = getG g c0 := by
  induction m with
  | eps => intro _; rfl
  | cls _ => intro _; rfl
  | seq m1 m2 ih1 ih2 =>
    intro h
    unfold usesG at h
    rw [Bool.or_eq_false_iff] at h
    rw [ih2 h.2, ih1 h.1]
  | altL m ih =>
    intro h
    unfold usesG at h
    rw [Bool.or_eq_false_iff] at h
    exact ih h.1
  | altR m ih =>
    intro h
    unfold usesG at h
    rw [Bool.or_eq_false_iff] at h
    exact ih h.2
  | optS m ih => intro h; exact ih h
  | optN => intro _; rfl
  | starGm _ => intro _; rfl
  | starLm _ => intro _; rfl
  | plusGm _ _ => intro _; rfl
  | plusLm _ _ => intro _; rfl
  | grp m ih =>
    intro h
    unfold usesG at h
    rw [Bool.or_eq_false_iff] at h
    rw [getG_setG_ne _ _ (beq_eq_false_iff_ne.mp h.1), ih h.2]

theorem company_shape {restR : RE} {s : List Char} {capsF : Caps}
    (hu : usesG .company restR = false)
    (h : runPattern (RE.seq companyG restR) s = some capsF) :
    ∃ ch tb, capsF.company = some (String.mk (ch :: tb)) ∧ azAZciB ch = true ∧
      ∀ x ∈ tb, neCommaB x = true := by
  unfold runPattern at h
  obtain ⟨t, rest, c2, hs, m, hk⟩ := mat_sound _ _ _ _ _ h
  cases hk
  cases m with
  | seq m1 m2 =>
    unfold companyG at m1
    cases m1 with
    | grp minner =>
      cases minner with
      | seq ma mb =>
        cases ma with
        | cls hch =>
          cases mb with
          | plusGm hne hall =>
            rename_i trest tb ch
            refine ⟨ch, tb, ?_, hch, hall⟩
            have hpres := getG_of_not_usesG m2 hu
            rw [show capsF.company = getG .company capsF from rfl, hpres]
            rfl

theorem pyStripL_cons_not_space {c : Char} {l : List Char} (h : isSpaceB c = false) :
    ∃ m, pyStripL (c :: l) = c :: m ∧ ∀ x ∈ m, x ∈ l := by
  unfold pyStripL
  rw [List.dropWhile_cons, if_neg (by simp [h])]
  unfold dropTrailWs
  rw [List.reverse_cons, List.dropWhile_append]
  by_cases he : (l.reverse.dropWhile isSpaceB).isEmpty = true
  · rw [if_pos he]
    refine ⟨[], ?_, by simp⟩
    rw [List.dropWhile_cons]
    simp [h]
  · rw [if_neg he, List.reverse_append]
    refine ⟨(l.reverse.dropWhile isSpaceB).reverse, by simp, ?_⟩
    intro x hx
    rw [List.mem_reverse] at hx
    have hx2 : x ∈ l.reverse := (List.dropWhile_sublist isSpaceB).mem hx
    exact List.mem_reverse.mp hx2

theorem not_space_of_alpha {c : Char} (h : c.isAlpha = true) : isSpaceB c = false := by
  cases hsp : isSpaceB c
  · rfl
  · exfalso
    unfold isSpaceB at hsp
    simp only [Bool.or_eq_true, beq_iff_eq] at hsp
    rcases hsp with ((((rfl | rfl) | rfl) | rfl) | rfl) | rfl <;> exact absurd h (by decide)

theorem ne_comma_of_alpha {c : Char} (h : c.isAlpha = true) : c ≠ ',' := by
  intro he
  subst he
  exact absurd h (by decide)

theorem caps_company_of_cascade {P : String} {caps : Caps}
    (h : List.findSome? (fun p => runPattern p P.toList) FUNDING_PATTERNS = some caps) :
    ∃ ch tb, caps.company = some (String.mk (ch :: tb)) ∧ azAZciB ch = true ∧
      ∀ x ∈ tb, neCommaB x = true := by
  unfold FUNDING_PATTERNS at h
  rcases h1 : runPattern pattern1 P.toList with _ | d1
  · rcases h2 : runPattern pattern2 P.toList with _ | d2
    · rcases h3 : runPattern pattern3 P.toList with _ | d3
      · simp only [List.findSome?, h1, h2, h3] at h
        cases h
      · simp only [List.findSome?, h1, h2, h3] at h
        cases h
        exact company_shape (by decide) h3
    · simp only [List.findSome?, h1, h2] at h
      cases h
      exact company_shape (by decide) h2
  · simp only [List.findSome?, h1] at h
    cases h
    exact company_shape (by decide) h1

/-- C8 (amended): for every paragraph on which some pattern matches, the
company field captured by `parse_funding_paragraph` begins with an ASCII
letter — not necessarily uppercase, because the patterns carry
`re.IGNORECASE`, which makes the `[A-Z]` class match lowercase letters
too — and contains no comma. -/
theorem C8_company_starts_with_letter_and_has_no_comma (P : String)
    (h : (parse_funding_paragraph P).parsed = true) :
    ∃ ch m, (parse_funding_paragraph P).company.toList = ch :: m ∧ ch.isAlpha = true ∧
      ',' ∉ (parse_funding_paragraph P).company.toList := by
  unfold parse_funding_paragraph at h ⊢
  simp only [String.toList] at h ⊢
  rcases hf : List.findSome? (fun p => runPattern p P.data) FUNDING_PATTERNS with _ | caps
  · rw [hf] at h
    simp [noMatchEntry] at h
  · dsimp only
    obtain ⟨ch, tb, hc, hal, hnc⟩ := caps_company_of_cascade hf
    have hal2 : ch.isAlpha = true := hal
    simp only [entryOfCaps]
    rw [hc]
    unfold optStrip pyStripS
    obtain ⟨m, hm, hsub⟩ := pyStripL_cons_not_space (l := tb) (not_space_of_alpha hal2)
    simp only [Option.getD_some]
    rw [show (String.mk (ch :: tb)).toList = ch :: tb from rfl, hm]
    refine ⟨ch, m, rfl, hal2, ?_⟩
    intro hcm
    rcases List.mem_cons.mp hcm with he | hm2
    · exact ne_comma_of_alpha hal2 he.symm
    · have := hnc ',' (hsub ',' hm2)
      simp [neCommaB] at this

/-! ## Helper lemmas for the claim theorems -/

theorem filter_jobs_eq_filter (jobs : List Job) : filter_jobs jobs = jobs.filter includeJob := by
  induction jobs with
  | nil => rfl
  | cons j rest ih =>
    cases hr : matches_keywords j.title ROLE_KEYWORDS <;>
    cases he : matches_keywords j.title ENTRY_LEVEL_KEYWORDS <;>
    cases hs : matches_keywords j.title SENIOR_KEYWORDS <;>
    cases hl : matches_location j.location <;>
      simp [filter_jobs, List.filter_cons, hr, he, hs, hl, ih, includeJob]

theorem dedupSeen_spec (l : List (List Char)) :
    ∀ seen, (dedupSeen seen l).Nodup ∧ ∀ x ∈ dedupSeen seen l, x ∉ seen := by
  induction l with
  | nil => intro seen; simp [dedupSeen]
  | cons s rest ih =>
    intro seen
    by_cases h : s ∈ seen
    · simpa [dedupSeen, h] using ih seen
    · simp only [dedupSeen, if_neg h]
      refine ⟨List.nodup_cons.mpr ⟨fun hx => ?_, (ih (s :: seen)).1⟩, ?_⟩
      · exact (ih (s :: seen)).2 s hx (List.mem_cons_self s seen)
      · intro x hx
        rcases List.mem_cons.mp hx with rfl | hx2
        · exact h
        · intro hxs
          exact (ih (s :: seen)).2 x hx2 (List.mem_cons_of_mem _ hxs)

theorem generate_slugs_nodup (name : String) : (generate_slugs name).Nodup := by
  unfold generate_slugs
  refine List.Nodup.map (fun a b hab => ?_) (dedupSeen_spec _ []).1
  simpa using congrArg String.data hab

theorem collectParas_eq_specParas (sibs : List Node) : collectParas sibs = specParas sibs := by
  induction sibs with
  | nil => rfl
  | cons sib rest ih =>
    by_cases h : stopSib sib = true
    · simp [collectParas, specParas, h]
    · simp only [Bool.not_eq_true] at h
      by_cases hk : getText sib ≠ "" ∧ (getText sib).length > 20
      · simp [collectParas, specParas, h, hk] at ih ⊢
        simpa [specParas] using ih
      · simp [collectParas, specParas, h, hk] at ih ⊢
        simpa [specParas] using ih

theorem filterMapCongr {α β : Type} {f g : α → Option β} (l : List α)
    (h : ∀ a ∈ l, f a = g a) : l.filterMap f = l.filterMap g := by
  induction l with
  | nil => rfl
  | cons a rest ih =>
    simp only [List.filterMap_cons, h a (List.mem_cons_self a rest)]
    cases g a <;> simp [ih (fun x hx => h x (List.mem_cons_of_mem a hx))]

theorem extract_eq_specExtract (root : Node) :
    extract_funding_sections root = specExtract root := by
  unfold extract_funding_sections specExtract
  refine filterMapCongr _ (fun p _ => ?_)
  rw [collectParas_eq_specParas]

theorem extract_paras_ne_nil (root : Node) :
    ∀ sec ∈ extract_funding_sections root, sec.paragraphs ≠ [] := by
  intro sec hsec
  unfold extract_funding_sections at hsec
  rw [List.mem_filterMap] at hsec
  obtain ⟨p, -, hp⟩ := hsec
  by_cases ht : tagOf p.1 ∈ HEADING_SCAN_TAGS
  · rw [if_pos ht] at hp
    rcases hl : findLabel (pyLower (getText p.1)) with _ | lab <;> rw [hl] at hp
    · simp at hp
    · by_cases hpar : collectParas ((climb p.2).filter isElemN) = []
      · simp [hpar] at hp
      · simp only [if_neg hpar] at hp
        cases hp
        exact hpar
  · rw [if_neg ht] at hp
    simp at hp

/-! ## Claim theorems -/

/-- C1: for every input string P, `parse_funding_paragraph P` returns a
record whose `raw_text` field equals P exactly, and whose `parsed` field is
true if and only if at least one pattern of the ordered cascade matches P. -/
theorem C1_raw_text_verbatim_and_parsed_iff_match (P : String) :
    (parse_funding_paragraph P).raw_text = P ∧
      ((parse_funding_paragraph P).parsed = true ↔ anyPatternMatches P = true) := by
  unfold parse_funding_paragraph anyPatternMatches FUNDING_PATTERNS
  simp only [String.toList]
  rcases h1 : runPattern pattern1 P.data with _ | d1 <;>
  rcases h2 : runPattern pattern2 P.data with _ | d2 <;>
  rcases h3 : runPattern pattern3 P.data with _ | d3 <;>
    simp [List.findSome?, h1, h2, h3, entryOfCaps, noMatchEntry]

/-- C2: `parse_funding_paragraph` is a total function (the embedding is a
Lean function, so it cannot raise), every field other than `parsed` is a
`String` by type, and when no pattern matches the result is the explicit
failure record: `parsed = false`, all six structured fields empty, and
`raw_text` the input verbatim. -/
theorem C2_no_match_gives_empty_failure_record (P : String)
    (h : anyPatternMatches P = false) :
    parse_funding_paragraph P = noMatchEntry P := by
  unfold anyPatternMatches FUNDING_PATTERNS at h
  simp only [String.toList, List.any_cons, List.any_nil, Bool.or_eq_false_iff] at h
  obtain ⟨e1, e2, e3, -⟩ := h
  have n1 : runPattern pattern1 P.data = none := Option.not_isSome_iff_eq_none.mp (by simp [e1])
  have n2 : runPattern pattern2 P.data = none := Option.not_isSome_iff_eq_none.mp (by simp [e2])
  have n3 : runPattern pattern3 P.data = none := Option.not_isSome_iff_eq_none.mp (by simp [e3])
  unfold parse_funding_paragraph FUNDING_PATTERNS
  simp [List.findSome?, String.toList, n1, n2, n3]

theorem C2_witness :
    anyPatternMatches "hello world" = false ∧
      parse_funding_paragraph "hello world" = noMatchEntry "hello world" :=
  ⟨by decide, C2_no_match_gives_empty_failure_record "hello world" (by decide)⟩

/-- C3: rule priority is first-match-wins: whenever pattern 1 (the full
template) matches a paragraph, the returned entry is built from pattern 1's
captures alone — even if pattern 3 (the minimal fallback) also matches —
so later patterns never influence the result. -/
theorem C3_first_match_wins (P : String) (caps : Caps)
    (h1 : runPattern pattern1 P.toList = some caps)
    (_h3 : (runPattern pattern3 P.toList).isSome = true) :
    parse_funding_paragraph P = entryOfCaps P caps := by
  unfold parse_funding_paragraph FUNDING_PATTERNS
  simp only [String.toList] at h1 ⊢
  simp [List.findSome?, h1]

set_option maxRecDepth 1000000 in
set_option maxHeartbeats 1000000 in
theorem C3_witness :
    (runPattern pattern3 zetaParagraph.toList).isSome = true ∧
      parse_funding_paragraph zetaParagraph = entryOfCaps zetaParagraph zetaCaps :=
  ⟨by decide, C3_first_match_wins zetaParagraph zetaCaps (by decide) (by decide)⟩

set_option maxRecDepth 1000000 in
set_option maxHeartbeats 1000000 in
/-- C4: on the spec's end-to-end example sentence, `parse_funding_paragraph`
yields company "Acme Robotics", amount "12 million", a round containing
"seed funding", location "New York", lead investor "Foo Ventures", and
`parsed = true`. -/
theorem C4_acme_example_fields :
    (parse_funding_paragraph acmeParagraph).company = "Acme Robotics" ∧
      (parse_funding_paragraph acmeParagraph).amount = "12 million" ∧
      strContains (parse_funding_paragraph acmeParagraph).round "seed funding" = true ∧
      (parse_funding_paragraph acmeParagraph).location = "New York" ∧
      (parse_funding_paragraph acmeParagraph).lead_investor = "Foo Ventures" ∧
      (parse_funding_paragraph acmeParagraph).parsed = true := by
  have hp : parse_funding_paragraph acmeParagraph =
      { company := "Acme Robotics", amount := "12 million", round := "seed funding"
        location := "New York", description := "delivery startup"
        lead_investor := "Foo Ventures", raw_text := acmeParagraph, parsed := true } := by
    decide
  rw [hp]
  exact ⟨rfl, rfl, by decide, rfl, rfl, rfl⟩

set_option maxRecDepth 1000000 in
set_option maxHeartbeats 1000000 in
/-- C5: sections are extracted exactly as described — for each matched
heading, the paragraphs are the visible texts of the siblings following the
heading's section wrapper, in document order, stopping exclusively at the
first sibling containing a nested heading or a canonical funding-heading
label in its text, keeping only non-empty texts strictly longer than 20
characters; a heading with zero qualifying paragraphs yields no section.
On the demo document, the 15-character text is excluded, the 25-character
text is included, and the empty "smaller fundings" section is dropped. -/
theorem C5_section_extraction_boundary_and_noise_filter :
    (∀ root : Node,
      extract_funding_sections root = specExtract root ∧
        ∀ sec ∈ extract_funding_sections root, sec.paragraphs ≠ []) ∧
      extract_funding_sections demoRoot = [⟨"massive fundings", [demoPara25]⟩] :=
  ⟨fun root => ⟨extract_eq_specExtract root, extract_paras_ne_nil root⟩, by decide⟩

/-- C6: the job filter includes a listing if and only if all four predicates
hold (role keyword, entry-level keyword, no senior keyword — all on the
space-padded lowercased title — and location keyword on the lowercased
location); "Senior Software Engineer" in "New York, NY" is excluded and
"Software Engineer I" in "Remote" is included. -/
theorem C6_filter_is_conjunction_of_four_predicates :
    (∀ jobs : List Job, filter_jobs jobs = jobs.filter includeJob) ∧
      filter_jobs [seniorNYJob] = [] ∧ filter_jobs [swe1RemoteJob] = [swe1RemoteJob] :=
  ⟨filter_jobs_eq_filter, by decide, by decide⟩

/-- C7: slug generation is deterministic with fixed candidate order and
first-seen de-duplication: "Gather AI" gives exactly
["gatherai", "gather-ai", "gather"], "Notion" gives exactly ["notion"], and
no input ever produces duplicates. -/
theorem C7_slug_order_and_dedup :
    generate_slugs "Gather AI" = ["gatherai", "gather-ai", "gather"] ∧
      generate_slugs "Notion" = ["notion"] ∧
      ∀ name : String, (generate_slugs name).Nodup :=
  ⟨by decide, by decide, generate_slugs_nodup⟩

set_option maxRecDepth 1000000 in
set_option maxHeartbeats 1000000 in
/-- C8 counterexample: the claim says the captured company always begins
with an uppercase letter, but the patterns are compiled with
`re.IGNORECASE`, so `[A-Z]` also matches lowercase: this paragraph parses
with company "acme", whose first letter is not uppercase. -/
theorem C8_counterexample_lowercase_company :
    (parse_funding_paragraph lowerAcmeParagraph).parsed = true ∧
      (parse_funding_paragraph lowerAcmeParagraph).company = "acme" ∧
      (((parse_funding_paragraph lowerAcmeParagraph).company.toList.headD ' ').isUpper = false) := by
  have hp : parse_funding_paragraph lowerAcmeParagraph =
      { company := "acme", amount := "5 million", round := "seed funding"
        location := "Boston", description := "fintech", lead_investor := ""
        raw_text := lowerAcmeParagraph, parsed := true } := by
    decide
  rw [hp]
  exact ⟨rfl, rfl, by decide⟩

set_option maxRecDepth 1000000 in
set_option maxHeartbeats 1000000 in
theorem C8_witness :
    ∃ ch m, (parse_funding_paragraph miraParagraph).company.toList = ch :: m ∧
      ch.isAlpha = true ∧ ',' ∉ (parse_funding_paragraph miraParagraph).company.toList :=
  C8_company_starts_with_letter_and_has_no_comma miraParagraph (by decide)

/-- C9: with the shared run state guarded by the lock, a `/api/run` request
arriving while a run is in progress is answered with HTTP 409, starts no
pipeline thread, and leaves the state unchanged, so `/api/status` still
reports the in-progress run's state. -/
theorem C9_concurrent_start_rejected (s : RunState) (h : s.running = true) :
    api_run s = (s, 409, false) ∧ api_status (api_run s).1 = s := by
  simp [api_run, api_status, h]

theorem C9_witness :
    busyRunState.running = true ∧
      (api_run busyRunState = (busyRunState, 409, false) ∧
        api_status (api_run busyRunState).1 = busyRunState) :=
  ⟨rfl, C9_concurrent_start_rejected busyRunState rfl⟩

/-- C10: the location predicate applies no space padding — any location
whose lowercased text contains a location keyword as a substring (interior
occurrences included) passes the filter. -/
theorem C10_location_raw_substring (loc kw : String) (h1 : kw ∈ LOCATION_KEYWORDS)
    (h2 : strContains (pyLower loc) kw = true) : matches_location loc = true := by
  unfold matches_location
  rw [List.any_eq_true]
  exact ⟨kw, h1, h2⟩

theorem C10_witness :
    strContains (pyLower "Albany") "ny" = true ∧ matches_location "Albany" = true :=
  ⟨by decide, C10_location_raw_substring "Albany" "ny" (by decide) (by decide)⟩
